import Mathlib

/-!
Verification of the schedule-conflict detection and constrained-assignment
engine of the matching-algorithm repository.

The Python sources are embedded shallowly:
  * `parse_course_time.py` — schedule-string parsing (`TimeParser`) and the
    conflict / proximity matrices (`TimeMatrix`);
  * `matching.py` — the 0/1 integer-program formulation and the control flow
    of `matching_task` around the external solver.

Python exceptions are modelled with `Except PyErr` / `Option` (a `none` or
`.error` result marks the input on which the Python code raises); Python `set`
becomes `Finset Nat`; Python strings are `List Char` at the points where the
code manipulates them character by character.
-/

namespace Matching

/-- Model of the Python exceptions that the embedded code can raise. -/
inductive PyErr where
  | valueError
  | zeroDivisionError
deriving DecidableEq

instance {ε α : Type} [DecidableEq ε] [DecidableEq α] : DecidableEq (Except ε α) :=
  fun a b =>
    match a, b with
    | .error e1, .error e2 =>
      if h : e1 = e2 then .isTrue (by rw [h]) else .isFalse (by simp [h])
    | .ok v1, .ok v2 =>
      if h : v1 = v2 then .isTrue (by rw [h]) else .isFalse (by simp [h])
    | .error _, .ok _ => .isFalse (by simp)
    | .ok _, .error _ => .isFalse (by simp)

/-- Whitespace characters stripped by Python `int()`. -/
def isPySpace (c : Char) : Bool :=
  c = ' ' || c = '\t' || c = '\n' || c = '\r'

/-- Decimal value of a digit string. -/
def digitsToNat (t : List Char) : Nat :=
  t.foldl (fun acc c => acc * 10 + (c.toNat - '0'.toNat)) 0

/-- Model of Python `int()` on the strings this parser feeds it: surrounding
whitespace is stripped, an optional leading `+` is allowed, and the rest must
be a non-empty digit string; `none` models the `ValueError` raised otherwise.
(The parser never passes a string containing `-` to `int()`: such parts take
the range branch, whose pieces contain no `-`.) -/
def pyIntNat (s : List Char) : Option Nat :=
  let t := ((s.dropWhile isPySpace).reverse.dropWhile isPySpace).reverse
  let t := match t with
    | '+' :: rest => rest
    | u => u
  if t.isEmpty then none
  else if t.all Char.isDigit then some (digitsToNat t) else none

/-- Model of Python `str.split(sep)` for a one-character separator: splitting
the empty string yields `[[]]`, mirroring `"".split(',') == ['']`. -/
def splitChar (sep : Char) : List Char → List (List Char)
  | [] => [[]]
  | c :: rest =>
    let r := splitChar sep rest
    if c = sep then [] :: r
    else
      match r with
      | [] => [[c]]
      | h :: t => (c :: h) :: t

/-- Shared body of the week/period item decoders (`parse_weeks` and
`parse_periods` have identical decoding logic in the source): an item is
either a single integer or an inclusive `start-end` range; `none` models the
`ValueError` from `int()` on a malformed piece or from unpacking a split with
more than one `-`. -/
def parseRangePart (part : List Char) : Option (Finset Nat) :=
  if part.contains '-' then
    match splitChar '-' part with
    | [a, b] => do
      let lo ← pyIntNat a
      let hi ← pyIntNat b
      pure (Finset.Ico lo (hi + 1))
    | _ => none
  else
    (pyIntNat part).map (fun n => {n})

/-- Model of `TimeParser.parse_weeks`: strip the marker character, split on
commas, and take the union of all items; `none` models a raised
`ValueError`. -/
def parse_weeks (weekStr : List Char) : Option (Finset Nat) :=
  let s := weekStr.filter (fun c => c ≠ '周')
  (splitChar ',' s).foldlM (fun acc part => (parseRangePart part).map (fun w => acc ∪ w))
    (∅ : Finset Nat)

/-- Model of `TimeParser.parse_periods`: strip the two marker characters,
split on commas, and take the union of all items; `none` models a raised
`ValueError`. -/
def parse_periods (periodStr : List Char) : Option (Finset Nat) :=
  let s := (periodStr.filter (fun c => c ≠ '第')).filter (fun c => c ≠ '节')
  (splitChar ',' s).foldlM (fun acc part => (parseRangePart part).map (fun w => acc ∪ w))
    (∅ : Finset Nat)

/-- Model of `TimeParser.parse_day`: the seven fixed weekday literals map to
1–7, anything else to 0. -/
def parse_day (dayStr : List Char) : Nat :=
  if dayStr = "星期一".toList then 1
  else if dayStr = "星期二".toList then 2
  else if dayStr = "星期三".toList then 3
  else if dayStr = "星期四".toList then 4
  else if dayStr = "星期五".toList then 5
  else if dayStr = "星期六".toList then 6
  else if dayStr = "星期日".toList then 7
  else 0

example : parse_weeks "1-5,8-18周".toList =
    some ((Finset.Ico 1 6) ∪ (Finset.Ico 8 19)) := by decide

example : parse_periods "第01,02节".toList = some ({1, 2} : Finset Nat) := by decide

example : parse_day "星期三".toList = 3 := by decide

example : parse_weeks "x周".toList = none := by decide

/-- One match attempt of the bracket-field pattern used by
`parse_class_entry`, starting just after an opening bracket. The first
argument is true while inside a nested single-level bracket unit; `acc`
accumulates the capture in reverse. A lazy match succeeds at the first
closing bracket reachable at the outer level; a nested opening bracket inside
a nested unit, or end of input, means no match starts here. -/
def bracketMatchAux : Bool → List Char → List Char → Option (List Char × List Char)
  | _, _, [] => none
  | false, acc, c :: rest =>
    if c = ']' then some (acc.reverse, rest)
    else if c = '[' then bracketMatchAux true (c :: acc) rest
    else bracketMatchAux false (c :: acc) rest
  | true, acc, c :: rest =>
    if c = ']' then bracketMatchAux false (c :: acc) rest
    else if c = '[' then none
    else bracketMatchAux true (c :: acc) rest

/-- Fuel-indexed scan for `bracketMatches`; one unit of fuel is spent per
character position, and a successful match always strictly shrinks the
remaining input, so fuel equal to the input length never runs out. -/
def bracketMatchesFuel : Nat → List Char → List (List Char)
  | 0, _ => []
  | _ + 1, [] => []
  | fuel + 1, c :: rest =>
    if c = '[' then
      match bracketMatchAux false [] rest with
      | some (content, rest2) => content :: bracketMatchesFuel fuel rest2
      | none => bracketMatchesFuel fuel rest
    else bracketMatchesFuel fuel rest

/-- Model of `re.findall` with the bracket-field pattern of
`parse_class_entry` (an outer bracket pair whose content may include
single-level nested bracket units): scan left to right, at each opening
bracket try a lazy match, emit its capture and resume after the match,
otherwise advance one character. -/
def bracketMatches (s : List Char) : List (List Char) :=
  bracketMatchesFuel s.length s

theorem bracketMatchAux_length :
    ∀ (s : List Char) (lvl2 : Bool) (acc cont rest : List Char),
      bracketMatchAux lvl2 acc s = some (cont, rest) → rest.length < s.length := by
  intro s
  induction s with
  | nil =>
    intro lvl2 acc cont rest h
    cases lvl2 <;> simp [bracketMatchAux] at h
  | cons c cs ih =>
    intro lvl2 acc cont rest h
    cases lvl2 <;> simp only [bracketMatchAux] at h <;> split_ifs at h <;>
      first
        | exact Nat.lt_succ_of_lt (ih _ _ _ _ h)
        | · have h3 : cs = rest := congrArg Prod.snd (Option.some.inj h)
            subst h3
            exact Nat.lt_succ_self _

/-- Any fuel at least the input length gives the same scan result: the fuel
in `bracketMatches` never runs out, so the fuel-indexed definition is a
faithful rendering of the terminating Python scan. -/
theorem bracketMatchesFuel_congr :
    ∀ (f1 f2 : Nat) (s : List Char), s.length ≤ f1 → s.length ≤ f2 →
      bracketMatchesFuel f1 s = bracketMatchesFuel f2 s := by
  intro f1
  induction f1 with
  | zero =>
    intro f2 s hs1 _
    have : s = [] := List.length_eq_zero.mp (Nat.le_zero.mp hs1)
    subst this
    cases f2 <;> simp [bracketMatchesFuel]
  | succ f ih =>
    intro f2 s hs1 hs2
    cases s with
    | nil => cases f2 <;> simp [bracketMatchesFuel]
    | cons c rest =>
      cases f2 with
      | zero => simp at hs2
      | succ f2' =>
        have hr1 : rest.length ≤ f := Nat.succ_le_succ_iff.mp hs1
        have hr2 : rest.length ≤ f2' := Nat.succ_le_succ_iff.mp hs2
        simp only [bracketMatchesFuel]
        by_cases hc : c = '['
        · simp only [hc, if_pos rfl]
          cases hm : bracketMatchAux false [] rest with
          | some pr =>
            have hlt : pr.2.length < rest.length := bracketMatchAux_length rest false [] pr.1 pr.2 (by rw [hm])
            exact congrArg (pr.1 :: ·)
              (ih f2' pr.2 (Nat.le_of_lt (Nat.lt_of_lt_of_le hlt hr1))
                (Nat.le_of_lt (Nat.lt_of_lt_of_le hlt hr2)))
          | none => exact ih f2' rest hr1 hr2
        · simp only [if_neg hc]
          exact ih f2' rest hr1 hr2

/-- One match attempt of the non-greedy brace pattern of
`extract_course_time`, starting just after an opening brace: succeed at the
first closing brace; a newline (which `.` does not match) or end of input
means no match starts here. -/
def braceMatchAux (acc : List Char) : List Char → Option (List Char × List Char)
  | [] => none
  | c :: rest =>
    if c = '}' then some (acc.reverse, rest)
    else if c = '\n' then none
    else braceMatchAux (c :: acc) rest

/-- Fuel-indexed scan for `braceMatches`; fuel equal to the input length
never runs out, as for `bracketMatchesFuel`. -/
def braceMatchesFuel : Nat → List Char → List (List Char)
  | 0, _ => []
  | _ + 1, [] => []
  | fuel + 1, c :: rest =>
    if c = '{' then
      match braceMatchAux [] rest with
      | some (content, rest2) => ('{' :: (content ++ ['}'])) :: braceMatchesFuel fuel rest2
      | none => braceMatchesFuel fuel rest
    else braceMatchesFuel fuel rest

/-- Model of `re.findall` with the non-greedy brace pattern of
`extract_course_time`: each emitted group is the full matched text including
its braces. -/
def braceMatches (s : List Char) : List (List Char) :=
  braceMatchesFuel s.length s

theorem braceMatchAux_length :
    ∀ (s : List Char) (acc cont rest : List Char),
      braceMatchAux acc s = some (cont, rest) → rest.length < s.length := by
  intro s
  induction s with
  | nil => intro acc cont rest h; simp [braceMatchAux] at h
  | cons c cs ih =>
    intro acc cont rest h
    simp only [braceMatchAux] at h
    split_ifs at h <;>
      first
        | exact Nat.lt_succ_of_lt (ih _ _ _ h)
        | · have h3 : cs = rest := congrArg Prod.snd (Option.some.inj h)
            subst h3
            exact Nat.lt_succ_self _

/-- Any fuel at least the input length gives the same scan result, so the
fuel in `braceMatches` never runs out. -/
theorem braceMatchesFuel_congr :
    ∀ (f1 f2 : Nat) (s : List Char), s.length ≤ f1 → s.length ≤ f2 →
      braceMatchesFuel f1 s = braceMatchesFuel f2 s := by
  intro f1
  induction f1 with
  | zero =>
    intro f2 s hs1 _
    have : s = [] := List.length_eq_zero.mp (Nat.le_zero.mp hs1)
    subst this
    cases f2 <;> simp [braceMatchesFuel]
  | succ f ih =>
    intro f2 s hs1 hs2
    cases s with
    | nil => cases f2 <;> simp [braceMatchesFuel]
    | cons c rest =>
      cases f2 with
      | zero => simp at hs2
      | succ f2' =>
        have hr1 : rest.length ≤ f := Nat.succ_le_succ_iff.mp hs1
        have hr2 : rest.length ≤ f2' := Nat.succ_le_succ_iff.mp hs2
        simp only [braceMatchesFuel]
        by_cases hc : c = '{'
        · simp only [if_pos hc]
          cases hm : braceMatchAux [] rest with
          | some pr =>
            have hlt : pr.2.length < rest.length := braceMatchAux_length rest [] pr.1 pr.2 (by rw [hm])
            exact congrArg (('{' :: (pr.1 ++ ['}'])) :: ·)
              (ih f2' pr.2 (Nat.le_of_lt (Nat.lt_of_lt_of_le hlt hr1))
                (Nat.le_of_lt (Nat.lt_of_lt_of_le hlt hr2)))
          | none => exact ih f2' rest hr1 hr2
        · simp only [if_neg hc]
          exact ih f2' rest hr1 hr2

/-- One recurring weekly teaching block, as produced by
`parse_class_entry`. -/
structure TimeSlot where
  teacher : List Char
  day : Nat
  periods : Finset Nat
  weeks : Finset Nat
  location : List Char
deriving DecidableEq

/-- Model of `TimeParser.parse_class_entry`: fewer than 5 bracket fields
yields no slot (`ok none`); otherwise the five fields are decoded in source
order, and a `ValueError` raised by the period or week decoder propagates as
`.error`. -/
def parse_class_entry (entryStr : List Char) : Except PyErr (Option TimeSlot) :=
  let fields := bracketMatches entryStr
  if fields.length < 5 then .ok none
  else
    match parse_periods (fields.getD 2 []) with
    | none => .error .valueError
    | some periods =>
      match parse_weeks (fields.getD 3 []) with
      | none => .error .valueError
      | some weeks =>
        .ok (some ⟨fields.getD 0 [], parse_day (fields.getD 1 []), periods, weeks,
          fields.getD 4 []⟩)

/-- Model of one iteration of `TimeParser.extract_course_time`: a string
source is scanned for brace groups; a missing or non-string source (modelled
as `none`) yields no groups. -/
def extract_course_time (courseTime : Option (List Char)) : List (List Char) :=
  match courseTime with
  | some s => braceMatches s
  | none => []

/-- Body of the entry loop of `TimeParser.parse_schedules`: an empty entry
string is skipped, an entry decoding to no slot is skipped, a decoded slot is
appended, a raised error aborts. -/
def parseEntryStep (acc : List TimeSlot) (entry : List Char) :
    Except PyErr (List TimeSlot) :=
  if entry ≠ [] then
    match parse_class_entry entry with
    | .error e => .error e
    | .ok none => .ok acc
    | .ok (some slot) => .ok (acc ++ [slot])
  else .ok acc

/-- Model of the inner loop of `TimeParser.parse_schedules`: non-empty entry
strings are decoded in order, an entry decoding to no slot is skipped, and a
raised error aborts the whole parse. -/
def parse_entry_list (entries : List (List Char)) : Except PyErr (List TimeSlot) :=
  entries.foldlM parseEntryStep []

/-- Model of `TimeParser.parse_schedules` restricted to one entity: extract
the brace groups of its schedule source and decode them in order. -/
def parse_schedule (courseTime : Option (List Char)) : Except PyErr (List TimeSlot) :=
  parse_entry_list (extract_course_time courseTime)

example :
    parse_schedule (some "\x7b[刘高勇],[星期一],[第01,02节],[5周],[实A南-705]\x7d".toList) =
      .ok [⟨"刘高勇".toList, 1, {1, 2}, {5}, "实A南-705".toList⟩] := by decide

example : parse_schedule (some "\x7b\x7d".toList) = .ok [] := by decide

example : parse_schedule none = .ok [] := by decide

/-- Model of `TimeMatrix.weeks_overlap`: true when the two week sets are not
disjoint. -/
def weeks_overlap (weeks1 weeks2 : Finset Nat) : Bool :=
  decide (weeks1 ∩ weeks2).Nonempty

/-- Model of `TimeMatrix.periods_overlap`: true when the two period sets are
not disjoint. -/
def periods_overlap (periods1 periods2 : Finset Nat) : Bool :=
  decide (periods1 ∩ periods2).Nonempty

/-- Model of `TimeMatrix.schedules_conflict`: `schedule1` is the supervisor's
slot list, `schedule2` the task's; true when some task slot and some
supervisor slot share the weekday, overlap in weeks and in periods, and the
task slot's weeks and periods are contained in the supervisor slot's. -/
def schedules_conflict (schedule1 schedule2 : List TimeSlot) : Bool :=
  schedule2.any fun t =>
    schedule1.any fun s =>
      decide (t.day = s.day) && weeks_overlap t.weeks s.weeks &&
        periods_overlap t.periods s.periods &&
        decide (t.weeks ⊆ s.weeks) && decide (t.periods ⊆ s.periods)

/-- Per-slot score added by `calculate_time_proximity` once the minimum
period distance is known: the Python expression
`(10 - min_diff) if min_diff < 10 else 0`. -/
def proximityContrib (minDiff : Nat) : Nat :=
  if minDiff < 10 then 10 - minDiff else 0

/-- Union of the periods the supervisor occupies on the given weekday: the
inner accumulation loop of `calculate_time_proximity`. -/
def sameDayPeriods (supervisorSchedules : List TimeSlot) (day : Nat) : Finset Nat :=
  supervisorSchedules.foldl
    (fun acc s => if s.day = day then acc ∪ s.periods else acc) ∅

/-- Merge of two optional minima; folding it over a set computes the set's
least element (`none` for the empty set), the model of Python's `min` inside
`calculate_time_proximity`. -/
def optMin : Option Nat → Option Nat → Option Nat
  | none, b => b
  | some a, none => some a
  | some a, some b => some (min a b)

instance : Std.Commutative optMin :=
  ⟨by intro a b; cases a <;> cases b <;> simp [optMin, Nat.min_comm]⟩

instance : Std.Associative optMin :=
  ⟨by intro a b c; cases a <;> cases b <;> cases c <;> simp [optMin, Nat.min_assoc]⟩

/-- Least element of a finite set of naturals, `none` on the empty set. -/
def finsetMin (s : Finset Nat) : Option Nat :=
  s.fold optMin none some

/-- Minimum absolute period distance `min(abs(p - t) for p in sup for t in
task)`; `none` models the `ValueError` of `min` on an empty sequence. -/
def minPeriodDiff (supPeriods taskPeriods : Finset Nat) : Option Nat :=
  finsetMin ((supPeriods ×ˢ taskPeriods).image fun pq => Nat.dist pq.1 pq.2)

/-- Score of one task slot inside `calculate_time_proximity`: nothing is
added when the supervisor has no session on the slot's weekday; `none` models
the `ValueError` raised by `min` of an empty sequence (supervisor occupies
the weekday but the task slot has no periods). -/
def slotProximity (supervisorSchedules : List TimeSlot) (t : TimeSlot) : Option Nat :=
  let sp := sameDayPeriods supervisorSchedules t.day
  if sp.Nonempty then
    match minPeriodDiff sp t.periods with
    | some d => some (proximityContrib d)
    | none => none
  else some 0

/-- Model of `TimeMatrix.calculate_time_proximity`: sum of the per-slot
scores over the task's slots; `none` models a raised `ValueError`. -/
def calculate_time_proximity (supervisorSchedules taskSchedules : List TimeSlot) :
    Option Nat :=
  (taskSchedules.mapM (slotProximity supervisorSchedules)).map (fun l => l.sum)

/-- Entry `(i, j)` of the conflict matrix built by
`TimeMatrix.build_conflict_matrix`: row `i` is a supervisor, column `j` a
task. An out-of-range index reads an empty schedule. -/
def conflict_entry (supervisors tasks : List (List TimeSlot)) (i j : Nat) : Bool :=
  schedules_conflict (supervisors.getD i []) (tasks.getD j [])

/-- Entry `(i, j)` of the proximity matrix built by
`TimeMatrix.build_conflict_matrix`: the fixed penalty 100 on conflict,
otherwise the computed proximity; `none` models a `ValueError` escaping
`calculate_time_proximity`. -/
def proximity_entry (supervisors tasks : List (List TimeSlot)) (i j : Nat) : Option Nat :=
  if conflict_entry supervisors tasks i j then some 100
  else calculate_time_proximity (supervisors.getD i []) (tasks.getD j [])

example :
    schedules_conflict
      [⟨[], 1, Finset.Ico 1 3, Finset.Ico 1 19, []⟩]
      [⟨[], 1, {1, 2}, {5}, []⟩] = true := by decide

example :
    schedules_conflict
      [⟨[], 1, {1, 2}, {2, 3}, []⟩]
      [⟨[], 1, {1, 2}, {1, 2}, []⟩] = false := by decide

example :
    calculate_time_proximity
      [⟨[], 1, {3, 4}, {1}, []⟩]
      [⟨[], 1, {1, 2}, {1}, []⟩, ⟨[], 2, {5}, {1}, []⟩] = some 9 := by decide

/-- Per-reviewer task quota demanded by the balanced-load constraints of
`matching_task`: with `tasks_per_supervisor = T // R` and
`extra_tasks = T % R`, reviewer `i` must receive `tasks_per_supervisor + 1`
tasks when `i < extra_tasks` and `tasks_per_supervisor` otherwise. -/
def quota (R T i : Nat) : Nat :=
  if i < T % R then T / R + 1 else T / R

/-- The hard constraints `matching_task` hands the solver, over the values
`x i j` of the 0/1 decision variables: each variable is a `BoolVar` (value at
most 1), each task's column sums to 1, each reviewer's row sums to their
quota, and each conflicting pair's variable is forced to 0. -/
def lpConstraints (R T : Nat) (conflict : Nat → Nat → Bool)
    (x : Nat → Nat → Nat) : Prop :=
  (∀ i < R, ∀ j < T, x i j ≤ 1) ∧
  (∀ j < T, ∑ i ∈ Finset.range R, x i j = 1) ∧
  (∀ i < R, ∑ j ∈ Finset.range T, x i j = quota R T i) ∧
  (∀ i < R, ∀ j < T, conflict i j = true → x i j = 0)

instance (R T : Nat) (conflict : Nat → Nat → Bool) (x : Nat → Nat → Nat) :
    Decidable (lpConstraints R T conflict x) := by
  unfold lpConstraints; infer_instance

/-- Number of tasks the solution values `x` assign to reviewer `i`: the
count of columns `j < T` whose decision variable is 1. -/
def assignedCount (T : Nat) (x : Nat → Nat → Nat) (i : Nat) : Nat :=
  ((Finset.range T).filter fun j => x i j = 1).card

/-- Extraction loop of `matching_task` after an optimal solve: the pairs
`(i, j)` whose decision variable's value exceeds one half — for 0/1
variables, the pairs with value 1. -/
def extractAssignment (R T : Nat) (x : Nat → Nat → Nat) : List (Nat × Nat) :=
  (List.range R).flatMap fun i =>
    (List.range T).filterMap fun j => if 1 ≤ x i j then some (i, j) else none

/-- Outcome of the external SCIP solve, injected into the control-flow model
of `matching_task`: an `OPTIMAL` status carries the solution values of the
decision variables, a merely feasible status carries values too (the code
ignores them), and `infeasible` covers every other status. -/
inductive SolveOutcome where
  | optimal (x : Nat → Nat → Nat)
  | feasible (x : Nat → Nat → Nat)
  | infeasible

/-- Model of the control flow of `matching_task` around the external solver,
with the data-dependent steps abstracted: solver construction is an injected
flag (on failure the Python prints and returns `None`); with the solver
constructed, `tasks_per_supervisor = num_tasks // num_supervisors` raises
`ZeroDivisionError` when there are zero supervisors; the injected solve
outcome then yields the extracted assignment exactly for an `OPTIMAL` status
and `None` (after printing) for any other status. -/
def matching_task (R T : Nat) (solverOk : Bool) (solve : SolveOutcome) :
    Except PyErr (Option (List (Nat × Nat))) :=
  if !solverOk then .ok none
  else if R = 0 then .error .zeroDivisionError
  else
    match solve with
    | .optimal x => .ok (some (extractAssignment R T x))
    | _ => .ok none

/-- C1: for every (reviewer, task) pair, the conflict matrix entry is true
iff some task `TimeSlot` t and some reviewer `TimeSlot` s have the same
weekday, non-disjoint weeks, non-disjoint periods, and t's weeks and periods
contained in s's; in particular mere overlap without both containments never
flags a conflict. -/
theorem conflict_entry_iff_containment (supervisors tasks : List (List TimeSlot))
    (i j : Nat) :
    conflict_entry supervisors tasks i j = true ↔
      ∃ t ∈ tasks.getD j [], ∃ s ∈ supervisors.getD i [],
        t.day = s.day ∧ ¬Disjoint t.weeks s.weeks ∧ ¬Disjoint t.periods s.periods ∧
        t.weeks ⊆ s.weeks ∧ t.periods ⊆ s.periods := by
  simp only [conflict_entry, schedules_conflict, weeks_overlap, periods_overlap,
    List.any_eq_true, Bool.and_eq_true, decide_eq_true_eq,
    Finset.not_disjoint_iff_nonempty_inter]
  tauto

/-- C4: the per-slot proximity contribution of `calculate_time_proximity`
strictly decreases as the minimum period distance grows until it reaches 0 at
distance 10, and is 0 at every distance of 10 or more. -/
theorem proximityContrib_strict_anti_and_vanishing :
    (∀ d1 d2 : Nat, d1 < d2 → d2 ≤ 10 → proximityContrib d2 < proximityContrib d1) ∧
    (∀ d : Nat, 10 ≤ d → proximityContrib d = 0) := by
  constructor
  · intro d1 d2 h1 h2
    unfold proximityContrib
    split_ifs <;> omega
  · intro d h
    unfold proximityContrib
    rw [if_neg (by omega)]

/-- Witness for C4 at concrete distances 3 < 5 and 12 ≥ 10. -/
theorem proximityContrib_strict_anti_and_vanishing_witness :
    proximityContrib 5 < proximityContrib 3 ∧ proximityContrib 12 = 0 :=
  ⟨proximityContrib_strict_anti_and_vanishing.1 3 5 (by decide) (by decide),
   proximityContrib_strict_anti_and_vanishing.2 12 (by decide)⟩

/-- Agreement of two slots on the fields `calculate_time_proximity` reads:
weekday and periods; weeks, teacher and location are left arbitrary. -/
def slotTimeAgree (a b : TimeSlot) : Prop :=
  a.day = b.day ∧ a.periods = b.periods

theorem sameDayPeriods_congr {l1 l2 : List TimeSlot}
    (h : List.Forall₂ slotTimeAgree l1 l2) (d : Nat) :
    sameDayPeriods l1 d = sameDayPeriods l2 d := by
  unfold sameDayPeriods
  generalize (∅ : Finset Nat) = acc
  induction h generalizing acc with
  | nil => rfl
  | cons ha _ ih =>
    simp only [List.foldl_cons]
    rw [ha.1, ha.2]
    exact ih _

theorem slotProximity_congr {sup1 sup2 : List TimeSlot}
    (h : List.Forall₂ slotTimeAgree sup1 sup2) {t1 t2 : TimeSlot}
    (ht : slotTimeAgree t1 t2) :
    slotProximity sup1 t1 = slotProximity sup2 t2 := by
  unfold slotProximity
  rw [ht.1, ht.2, sameDayPeriods_congr h]

/-- C10: the proximity score depends only on each slot's weekday and period
set, on both sides: schedules agreeing pointwise in weekday and periods but
arbitrary in weeks, teacher and location get the same score, so a reviewer
teaching on the task's weekday in entirely disjoint weeks still raises the
pair's proximity. -/
theorem calculate_time_proximity_ignores_weeks
    (sup1 sup2 task1 task2 : List TimeSlot)
    (hsup : List.Forall₂ slotTimeAgree sup1 sup2)
    (htask : List.Forall₂ slotTimeAgree task1 task2) :
    calculate_time_proximity sup1 task1 = calculate_time_proximity sup2 task2 := by
  unfold calculate_time_proximity
  have hm : task1.mapM (slotProximity sup1) = task2.mapM (slotProximity sup2) := by
    induction htask with
    | nil => rfl
    | cons ha _ ih =>
      simp only [List.mapM_cons]
      rw [slotProximity_congr hsup ha, ih]
  rw [hm]

/-- Witness for C10: one reviewer slot in weeks {1} and one in weeks {9, 10}
with different teacher and location, against task slots in weeks {2} and {7}
respectively; weekday and periods agree, so the scores coincide. -/
theorem calculate_time_proximity_ignores_weeks_witness :
    calculate_time_proximity [⟨"甲".toList, 1, {1, 2}, {1}, "A".toList⟩]
        [⟨[], 1, {3}, {2}, []⟩] =
      calculate_time_proximity [⟨"乙".toList, 1, {1, 2}, {9, 10}, "B".toList⟩]
        [⟨"丙".toList, 1, {3}, {7}, []⟩] :=
  calculate_time_proximity_ignores_weeks _ _ _ _
    (List.Forall₂.cons ⟨rfl, rfl⟩ List.Forall₂.nil)
    (List.Forall₂.cons ⟨rfl, rfl⟩ List.Forall₂.nil)

theorem finsetMin_spec (s : Finset Nat) (hs : s.Nonempty) :
    ∃ d, finsetMin s = some d ∧ d ∈ s ∧ ∀ a ∈ s, d ≤ a := by
  induction s using Finset.induction_on with
  | empty => exact absurd hs (by simp)
  | insert ha ih =>
    rename_i a s
    rcases s.eq_empty_or_nonempty with rfl | hne
    · refine ⟨a, ?_, by simp, by simp⟩
      simp [finsetMin, Finset.fold_insert ha, optMin]
    · obtain ⟨d, hd, hmem, hle⟩ := ih hne
      refine ⟨min a d, ?_, ?_, ?_⟩
      · simp only [finsetMin] at hd ⊢
        rw [Finset.fold_insert ha, hd]
        rfl
      · rcases le_total a d with h | h
        · rw [min_eq_left h]; exact Finset.mem_insert_self a s
        · rw [min_eq_right h]; exact Finset.mem_insert_of_mem hmem
      · intro b hb
        rcases Finset.mem_insert.mp hb with rfl | hb
        · exact min_le_left _ _
        · exact le_trans (min_le_right _ _) (hle b hb)

theorem minPeriodDiff_isSome (supPeriods taskPeriods : Finset Nat)
    (h1 : supPeriods.Nonempty) (h2 : taskPeriods.Nonempty) :
    ∃ d, minPeriodDiff supPeriods taskPeriods = some d := by
  obtain ⟨d, hd, -, -⟩ := finsetMin_spec _ ((h1.product h2).image _)
  exact ⟨d, hd⟩

theorem proximityContrib_eq_toNat (d : Nat) :
    proximityContrib d = (max 0 (10 - (d : Int))).toNat := by
  unfold proximityContrib
  split_ifs with h
  · rw [max_eq_right (by omega : (0 : Int) ≤ 10 - (d : Int))]
    omega
  · rw [max_eq_left (by omega : (10 : Int) - (d : Int) ≤ 0)]
    rfl

/-- Stated from the spec's words (§4.2), for the refinement claim C3: each
task slot contributes `max(0, 10 − min_diff)`, where `min_diff` is the
minimum absolute period distance between the slot's periods and the periods
the reviewer occupies on the same weekday; a slot on a weekday the reviewer
does not occupy contributes 0. (The `none` branch is unreachable for slots
with a non-empty period set.) -/
def specSlotScore (supervisorSchedules : List TimeSlot) (t : TimeSlot) : Nat :=
  let sp := sameDayPeriods supervisorSchedules t.day
  if sp.Nonempty then
    match minPeriodDiff sp t.periods with
    | some d => (max 0 (10 - (d : Int))).toNat
    | none => 0
  else 0

/-- Stated from the spec's words: the proximity score of a pair is the sum
of the per-slot scores over every task time-slot. -/
def specProximityScore (supervisorSchedules taskSchedules : List TimeSlot) : Nat :=
  (taskSchedules.map (specSlotScore supervisorSchedules)).sum

theorem slotProximity_eq_spec (sup : List TimeSlot) (t : TimeSlot)
    (ht : t.periods.Nonempty) :
    slotProximity sup t = some (specSlotScore sup t) := by
  unfold slotProximity specSlotScore
  by_cases hsp : (sameDayPeriods sup t.day).Nonempty
  · obtain ⟨d, hd⟩ := minPeriodDiff_isSome _ _ hsp ht
    simp only [if_pos hsp, hd]
    rw [proximityContrib_eq_toNat]
  · rw [if_neg hsp, if_neg hsp]

theorem calculate_time_proximity_eq_spec (sup task : List TimeSlot)
    (h : ∀ t ∈ task, t.periods.Nonempty) :
    calculate_time_proximity sup task = some (specProximityScore sup task) := by
  unfold calculate_time_proximity specProximityScore
  induction task with
  | nil => rfl
  | cons t l ih =>
    have ht := slotProximity_eq_spec sup t (h t (by simp))
    have hl := ih (fun u hu => h u (by simp [hu]))
    simp only [List.mapM_cons, ht, List.map_cons, List.sum_cons]
    cases hml : l.mapM (slotProximity sup) with
    | none => rw [hml] at hl; simp at hl
    | some as =>
      rw [hml] at hl
      simp at hl
      simp [hl]

/-- C3: a conflicting pair's proximity matrix entry is the fixed constant
100; a non-conflicting pair's entry is the spec's formula — the sum over
every task time-slot of `max(0, 10 − min_diff)` with slots on weekdays the
reviewer does not occupy contributing 0 — provided every task slot has a
non-empty period set (on a slot with an empty period set and an occupied
weekday the Python `min` raises instead). -/
theorem proximity_entry_eq_spec (supervisors tasks : List (List TimeSlot)) (i j : Nat)
    (h : ∀ t ∈ tasks.getD j [], t.periods.Nonempty) :
    proximity_entry supervisors tasks i j =
      some (if conflict_entry supervisors tasks i j then 100
        else specProximityScore (supervisors.getD i []) (tasks.getD j [])) := by
  unfold proximity_entry
  by_cases hc : conflict_entry supervisors tasks i j
  · simp [hc]
  · simp only [if_neg hc, Bool.false_eq_true]
    exact calculate_time_proximity_eq_spec _ _ h

/-- Witness for C3 on a concrete non-conflicting and a concrete conflicting
pair sharing the matrices. -/
theorem proximity_entry_eq_spec_witness :
    proximity_entry [[⟨[], 1, {3, 4}, {1}, []⟩]] [[⟨[], 1, {1, 2}, {2}, []⟩]] 0 0 =
      some (if conflict_entry [[⟨[], 1, {3, 4}, {1}, []⟩]] [[⟨[], 1, {1, 2}, {2}, []⟩]] 0 0
        then 100
        else specProximityScore [⟨[], 1, {3, 4}, {1}, []⟩] [⟨[], 1, {1, 2}, {2}, []⟩]) :=
  proximity_entry_eq_spec [[⟨[], 1, {3, 4}, {1}, []⟩]] [[⟨[], 1, {1, 2}, {2}, []⟩]] 0 0
    (by decide)

theorem sum_eq_card_filter (n : Nat) (f : Nat → Nat) (hb : ∀ i < n, f i ≤ 1) :
    ∑ i ∈ Finset.range n, f i = ((Finset.range n).filter fun i => f i = 1).card := by
  have hcongr : ∀ i ∈ Finset.range n, f i = if f i = 1 then 1 else 0 := by
    intro i hi
    have := hb i (Finset.mem_range.mp hi)
    by_cases hf : f i = 1
    · simp [hf]
    · have h0 : f i = 0 := by omega
      simp [hf, h0]
  calc ∑ i ∈ Finset.range n, f i
      = ∑ i ∈ Finset.range n, (if f i = 1 then 1 else 0) := Finset.sum_congr rfl hcongr
    _ = ((Finset.range n).filter fun i => f i = 1).card := by
        rw [Finset.sum_boole]
        simp

/-- C2: any solution values satisfying the hard constraints `matching_task`
formulates — in particular the values of an `OPTIMAL` solve — assign every
task to exactly one reviewer, never to a conflicting reviewer, extract to
exactly the pairs with variable value 1, give each of the first `T mod R`
reviewers `T / R + 1` tasks and every other reviewer `T / R` tasks, and hence
give any two reviewers counts differing by at most 1. -/
theorem lp_solution_valid (R T : Nat) (conflict : Nat → Nat → Bool)
    (x : Nat → Nat → Nat) (h : lpConstraints R T conflict x) :
    (∀ j < T, ∃! i, i < R ∧ x i j = 1) ∧
    (∀ i < R, ∀ j < T, x i j = 1 → conflict i j = false) ∧
    (∀ i j, (i, j) ∈ extractAssignment R T x ↔ i < R ∧ j < T ∧ x i j = 1) ∧
    (∀ i < R, assignedCount T x i = quota R T i) ∧
    (∀ i1 < R, ∀ i2 < R, assignedCount T x i1 ≤ assignedCount T x i2 + 1) := by
  obtain ⟨hb, hcol, hrow, hconf⟩ := h
  have hq : ∀ i, i < R → assignedCount T x i = quota R T i := by
    intro i hi
    unfold assignedCount
    rw [← sum_eq_card_filter T (fun j => x i j) (fun j hj => hb i hi j hj)]
    exact hrow i hi
  refine ⟨?_, ?_, ?_, hq, ?_⟩
  · intro j hj
    have hcard : ((Finset.range R).filter fun i => x i j = 1).card = 1 := by
      rw [← sum_eq_card_filter R (fun i => x i j) (fun i hi => hb i hi j hj)]
      exact hcol j hj
    obtain ⟨i0, hi0⟩ := Finset.card_eq_one.mp hcard
    have hmem : i0 ∈ (Finset.range R).filter fun i => x i j = 1 :=
      hi0 ▸ Finset.mem_singleton_self i0
    obtain ⟨hir, hx1⟩ := Finset.mem_filter.mp hmem
    refine ⟨i0, ⟨Finset.mem_range.mp hir, hx1⟩, ?_⟩
    intro i hi
    have hmem2 : i ∈ (Finset.range R).filter fun i => x i j = 1 :=
      Finset.mem_filter.mpr ⟨Finset.mem_range.mpr hi.1, hi.2⟩
    rw [hi0] at hmem2
    exact Finset.mem_singleton.mp hmem2
  · intro i hi j hj hx
    by_contra hc
    have hct : conflict i j = true := by
      revert hc
      cases conflict i j <;> simp
    have := hconf i hi j hj hct
    omega
  · intro i j
    unfold extractAssignment
    simp only [List.mem_flatMap, List.mem_filterMap, List.mem_range]
    constructor
    · rintro ⟨i', hi', j', hj', hite⟩
      split_ifs at hite with hx
      · have hpair := Option.some.inj hite
        have hii : i' = i := congrArg Prod.fst hpair
        have hjj : j' = j := congrArg Prod.snd hpair
        subst hii
        subst hjj
        have := hb i' hi' j' hj'
        exact ⟨hi', hj', by omega⟩
    · rintro ⟨hi, hj, hx⟩
      exact ⟨i, hi, j, hj, by rw [if_pos (by omega)]⟩
  · intro i1 h1 i2 h2
    rw [hq i1 h1, hq i2 h2]
    unfold quota
    split_ifs <;> omega

/-- Witness for C2: two reviewers, three tasks, no conflicts; tasks 0 and 1
to reviewer 0, task 2 to reviewer 1, so reviewer 0 gets the quota
`3 / 2 + 1 = 2`. -/
theorem lp_solution_valid_witness :
    assignedCount 3
        (fun i j => if i = 0 then (if j ≤ 1 then 1 else 0) else (if j = 2 then 1 else 0))
        0 = quota 2 3 0 :=
  ((lp_solution_valid 2 3 (fun _ _ => false)
      (fun i j => if i = 0 then (if j ≤ 1 then 1 else 0) else (if j = 2 then 1 else 0))
      (by decide)).2.2.2.1) 0 (by decide)

/-- C5: counter-evidence on the code — schedule parsing is not total. An
entry with five bracket fields whose period item is non-numeric makes the
Python parser raise `ValueError` from `int()` (the model returns `.error`),
contradicting the spec's "never raises" and `parse_class_entry`'s own
docstring, which promises `None` on parse failure. -/
theorem parse_schedule_raises_on_bad_period :
    parse_schedule (some "\x7b[甲],[星期一],[第x节],[5周],[L]\x7d".toList) =
      .error .valueError := by decide

theorem parseEntryStep_skip (acc : List TimeSlot) (e : List Char)
    (he : parse_class_entry e = .ok none) : parseEntryStep acc e = .ok acc := by
  unfold parseEntryStep
  split_ifs with h
  · rw [he]
  · rfl

theorem foldlM_parseEntryStep_skip (e : List Char)
    (he : parse_class_entry e = .ok none) :
    ∀ (pre : List (List Char)) (acc : List TimeSlot) (post : List (List Char)),
      (pre ++ e :: post).foldlM parseEntryStep acc =
        (pre ++ post).foldlM parseEntryStep acc := by
  intro pre
  induction pre with
  | nil =>
    intro acc post
    simp only [List.nil_append, List.foldlM_cons]
    rw [parseEntryStep_skip acc e he]
    rfl
  | cons p ps ih =>
    intro acc post
    simp only [List.cons_append, List.foldlM_cons]
    cases hs : parseEntryStep acc p with
    | error err => rfl
    | ok acc2 => exact ih acc2 post

/-- C6: a brace-group entry with fewer than 5 bracket fields yields no
`TimeSlot` and no error — `parse_class_entry` returns no slot, and the parse
of any schedule containing the entry equals the parse with the entry removed,
so the remaining well-formed entries are still decoded. -/
theorem short_entry_skipped (pre post : List (List Char)) (e : List Char)
    (h : (bracketMatches e).length < 5) :
    parse_class_entry e = .ok none ∧
    parse_entry_list (pre ++ e :: post) = parse_entry_list (pre ++ post) := by
  have he : parse_class_entry e = .ok none := by
    unfold parse_class_entry
    rw [if_pos h]
  exact ⟨he, foldlM_parseEntryStep_skip e he pre [] post⟩

/-- Witness for C6: a three-field entry between a well-formed entry and
nothing is skipped without error. -/
theorem short_entry_skipped_witness :
    parse_class_entry "\x7b[甲],[星期一],[第1节]\x7d".toList = .ok none ∧
    parse_entry_list
        (["\x7b[乙],[星期二],[第01节],[5周],[L]\x7d".toList] ++
          "\x7b[甲],[星期一],[第1节]\x7d".toList :: []) =
      parse_entry_list (["\x7b[乙],[星期二],[第01节],[5周],[L]\x7d".toList] ++ []) :=
  short_entry_skipped ["\x7b[乙],[星期二],[第01节],[5周],[L]\x7d".toList] []
    "\x7b[甲],[星期一],[第1节]\x7d".toList (by decide)

/-- C7: a missing or non-string schedule source (modelled as `none`) and the
literal empty-group string decode to the empty schedule without error. -/
theorem empty_source_empty_schedule :
    parse_schedule none = .ok [] ∧ parse_schedule (some "\x7b\x7d".toList) = .ok [] :=
  ⟨rfl, by decide⟩

/-- C8: counter-evidence on the code — zero reviewers with one task is not
rejected before the solver step: the solver is constructed first, and the
balanced-load division `num_tasks // num_supervisors` then raises an
unhandled `ZeroDivisionError` instead of a precondition failure. -/
theorem matching_task_zero_reviewers_divzero :
    matching_task 0 1 true .infeasible = .error .zeroDivisionError := rfl

/-- C9: counterexample — solver unavailability and infeasibility produce the
same return value `None` (`.ok none`), so the caller cannot distinguish the
two outcomes from the result, refuting the claimed distinct surfacing. -/
theorem solver_unavailable_eq_infeasible :
    matching_task 1 1 false .infeasible = matching_task 1 1 true .infeasible ∧
    matching_task 1 1 false .infeasible = .ok none :=
  ⟨rfl, rfl⟩

/-- C9 (amended): solver-construction failure and a non-`OPTIMAL` solve all
make `matching_task` return `None` — the return value does not distinguish
them (only console messages differ) — and an assignment, always the full
extraction and never a partial one, is returned exactly for an `OPTIMAL`
outcome. -/
theorem matching_task_failure_modes (R T : Nat) (solve : SolveOutcome)
    (x : Nat → Nat → Nat) (hR : R ≠ 0) :
    matching_task R T false solve = .ok none ∧
    matching_task R T true .infeasible = .ok none ∧
    matching_task R T true (.feasible x) = .ok none ∧
    matching_task R T true (.optimal x) = .ok (some (extractAssignment R T x)) := by
  unfold matching_task
  simp [hR]

/-- Witness for the amended C9 at one reviewer and one task. -/
theorem matching_task_failure_modes_witness :
    matching_task 1 1 false .infeasible = .ok none ∧
    matching_task 1 1 true .infeasible = .ok none ∧
    matching_task 1 1 true (.feasible fun _ _ => 0) = .ok none ∧
    matching_task 1 1 true (.optimal fun _ _ => 0) =
      .ok (some (extractAssignment 1 1 fun _ _ => 0)) :=
  matching_task_failure_modes 1 1 .infeasible (fun _ _ => 0) (by decide)

end Matching
